import Mathlib

/-!
Verification of the expression-to-IR translation pipeline
(lexer, recursive-descent parser, tree-walking code generator)
from `src/main.cpp`, as a shallow embedding.

Conventions of the embedding:
* The input line is a `List Char` scanned by position, mirroring the
  C++ `std::string` plus `m_pos` cursor.
* Character classes mirror the C locale (`std::isspace`, `std::isdigit`,
  `std::isalpha`, `std::isalnum`) restricted to ASCII, which is the
  documented input alphabet.
* Exceptions become `Except` values: the `std::invalid_argument` thrown
  by the lexer becomes `LexError` (carrying position and character),
  the `std::runtime_error` thrown by the parser becomes
  `PipelineError.parseErr`, and the `std::out_of_range` thrown by
  `std::stoi` becomes `PipelineError.outOfRange`.
* Every `double` stored in a `NumberAST` is produced by `std::stoi`
  applied to a digit-run literal, hence is a nonnegative integral
  value; it is represented by that `Nat`.  `std::to_string` on such a
  double prints the integer followed by `.000000` (six fractional
  digits), which the rendering functions reproduce literally.
* The generated program is kept as a list of instructions, each of
  which renders to exactly the line the C++ appends to `m_code`; the
  string returned by `Generate` is the concatenation of the rendered
  lines followed by the final `%result = ...` fragment.
* The mutually recursive parser functions take a fuel argument to make
  the recursion structural; `PipelineError.outOfFuel` is an artifact
  value that is never returned when the fuel exceeds the number of
  parsing steps, and the pipeline passes fuel well above that bound.
-/

/-- `std::isspace` in the C locale: space, \t, \n, \v, \f, \r. -/
def isSpace (c : Char) : Bool :=
  c.toNat == 32 || (9 ≤ c.toNat && c.toNat ≤ 13)

/-- `std::isdigit`. -/
def isDigit (c : Char) : Bool :=
  48 ≤ c.toNat && c.toNat ≤ 57

/-- `std::isalpha` (ASCII letters). -/
def isAlpha (c : Char) : Bool :=
  (65 ≤ c.toNat && c.toNat ≤ 90) || (97 ≤ c.toNat && c.toNat ≤ 122)

/-- `std::isalnum`. -/
def isAlnum (c : Char) : Bool :=
  isDigit c || isAlpha c

/-- `Token::Type`. -/
inductive TokenType
  | Number
  | Identifier
  | Plus
  | Minus
  | Mul
  | Div
  | LeftParen
  | RightParen
  | EndOfFile
deriving DecidableEq, Repr

/-- `Token`: a kind plus the optional literal text payload. -/
structure Token where
  type : TokenType
  value : Option String := none
deriving DecidableEq, Repr

/-- The data carried by the `std::invalid_argument` the lexer throws:
the scan position and the offending character (its message interpolates
exactly `m_pos` and `m_text[m_pos]`). -/
structure LexError where
  pos : Nat
  ch : Char
deriving DecidableEq, Repr

/-- The loop of `Lexer::SkipWhitespaces`.  Each scanning loop of the
lexer advances `m_pos` while it runs, so it is embedded with a `gas`
argument counting the characters left (`text.length - pos` at every
call), which makes the recursion structural; when the cursor is inside
the text the gas is positive, so the guard below reproduces the C++
loop condition exactly. -/
def skipWhitespacesAux (text : List Char) : Nat → Nat → Nat
  | 0, pos => pos
  | gas + 1, pos =>
    if h : pos < text.length then
      if isSpace (text.get ⟨pos, h⟩) then
        skipWhitespacesAux text gas (pos + 1)
      else pos
    else pos

/-- `Lexer::SkipWhitespaces`: advance the cursor past whitespace. -/
def skipWhitespaces (text : List Char) (pos : Nat) : Nat :=
  skipWhitespacesAux text (text.length - pos) pos

/-- The digit-run loops inside `Lexer::ReadAsNumberConstant`, with the
same gas convention as `skipWhitespacesAux`. -/
def readDigitsAux (text : List Char) : Nat → Nat → List Char × Nat
  | 0, pos => ([], pos)
  | gas + 1, pos =>
    if h : pos < text.length then
      let c := text.get ⟨pos, h⟩
      if isDigit c then
        let r := readDigitsAux text gas (pos + 1)
        (c :: r.1, r.2)
      else ([], pos)
    else ([], pos)

/-- The maximal digit run from `pos`, returning the characters read
and the new cursor. -/
def readDigits (text : List Char) (pos : Nat) : List Char × Nat :=
  readDigitsAux text (text.length - pos) pos

/-- `Lexer::ReadAsNumberConstant`: digits, optionally `.` and more digits. -/
def readAsNumberConstant (text : List Char) (pos : Nat) : Token × Nat :=
  let intPart := readDigits text pos
  if h : intPart.2 < text.length then
    if text.get ⟨intPart.2, h⟩ = '.' then
      let fracPart := readDigits text (intPart.2 + 1)
      ({ type := .Number,
         value := some (String.mk (intPart.1 ++ '.' :: fracPart.1)) },
       fracPart.2)
    else ({ type := .Number, value := some (String.mk intPart.1) }, intPart.2)
  else ({ type := .Number, value := some (String.mk intPart.1) }, intPart.2)

/-- The loop inside `Lexer::ReadAsIdentifier` (letters, digits,
underscore), with the same gas convention as `skipWhitespacesAux`. -/
def readIdentCharsAux (text : List Char) : Nat → Nat → List Char × Nat
  | 0, pos => ([], pos)
  | gas + 1, pos =>
    if h : pos < text.length then
      let c := text.get ⟨pos, h⟩
      if isAlnum c || c = '_' then
        let r := readIdentCharsAux text gas (pos + 1)
        (c :: r.1, r.2)
      else ([], pos)
    else ([], pos)

/-- The maximal identifier-character run from `pos`. -/
def readIdentChars (text : List Char) (pos : Nat) : List Char × Nat :=
  readIdentCharsAux text (text.length - pos) pos

/-- `Lexer::ReadAsIdentifier`. -/
def readAsIdentifier (text : List Char) (pos : Nat) : Token × Nat :=
  let r := readIdentChars text pos
  ({ type := .Identifier, value := some (String.mk r.1) }, r.2)

/-- `Lexer::GetNextToken`.  The C++ `while` loop skips at most one
maximal whitespace run before dispatching on the current character (a
second iteration never sees whitespace), so it is embedded as one
`skipWhitespaces` followed by the dispatch.  The pair component is the
updated `m_pos`. -/
def getNextToken (text : List Char) (pos : Nat) :
    Except LexError (Token × Nat) :=
  let p := skipWhitespaces text pos
  if h : p < text.length then
    let ch := text.get ⟨p, h⟩
    if isDigit ch then .ok (readAsNumberConstant text p)
    else if isAlpha ch then .ok (readAsIdentifier text p)
    else if ch = '+' then .ok ({ type := .Plus }, p + 1)
    else if ch = '-' then .ok ({ type := .Minus }, p + 1)
    else if ch = '*' then .ok ({ type := .Mul }, p + 1)
    else if ch = '/' then .ok ({ type := .Div }, p + 1)
    else if ch = '(' then .ok ({ type := .LeftParen }, p + 1)
    else if ch = ')' then .ok ({ type := .RightParen }, p + 1)
    else .error { pos := p, ch := ch }
  else .ok ({ type := .EndOfFile }, p)

/-- The AST (`VariableRefAST`, `NumberAST`, `BinaryExpressionAST`).
`NumberAST` stores a `double` in the C++, but every value that reaches
it is `std::stoi` of a digit run, i.e. a nonnegative integer, kept
here as a `Nat`. -/
inductive ExpressionAST
  | variableRef (name : String)
  | number (value : Nat)
  | binaryExpression (left right : ExpressionAST) (op : Char)
deriving DecidableEq, Repr

/-- The four operator instruction flavours of `SimpleCodeGenerator`. -/
inductive OpKind
  | add
  | sub
  | mul
  | div
deriving DecidableEq, Repr

/-- The register-name stem used for an operator temporary. -/
def OpKind.tmpName : OpKind → String
  | .add => "addtmp"
  | .sub => "subtmp"
  | .mul => "multmp"
  | .div => "divtmp"

/-- The mnemonic in the emitted instruction text. -/
def OpKind.mnemonic : OpKind → String
  | .add => "add"
  | .sub => "sub"
  | .mul => "mul"
  | .div => "div"

/-- One emitted IR instruction; its rendering reproduces exactly the
line `SimpleCodeGenerator` appends to `m_code`. -/
inductive Instr
  | loadVar (id : Nat) (name : String)
  | loadNum (id : Nat) (value : Nat)
  | binOp (kind : OpKind) (id : Nat) (left right : String)
deriving DecidableEq, Repr

/-- The numeric suffix of the instruction destination register. -/
def Instr.destId : Instr → Nat
  | .loadVar i _ => i
  | .loadNum i _ => i
  | .binOp _ i _ _ => i

/-- The destination register name (what the visit pushes on
`m_registers`). -/
def Instr.destName : Instr → String
  | .loadVar i _ => "%x" ++ toString i
  | .loadNum i _ => "%x" ++ toString i
  | .binOp k i _ _ => "%" ++ k.tmpName ++ toString i

/-- The text line appended to `m_code` for the instruction
(`std::to_string(double)` of an integral value prints six fractional
zeros). -/
def Instr.render : Instr → String
  | .loadVar i name => "%x" ++ toString i ++ " = %" ++ name ++ "\n"
  | .loadNum i v => "%x" ++ toString i ++ " = " ++ toString v ++ ".000000\n"
  | .binOp k i l r =>
    "%" ++ k.tmpName ++ toString i ++ " = " ++ k.mnemonic ++ " "
      ++ l ++ " " ++ r ++ "\n"

/-- The mutable state of `SimpleCodeGenerator`: `m_code` (as the list
of appended instruction lines), `m_registers` (head = `back()`), and
`m_registerId`. -/
structure GenState where
  code : List Instr
  registers : List String
  registerId : Nat
deriving DecidableEq, Repr

/-- The three `SimpleCodeGenerator::Visit` overloads, dispatched over
the node as `Accept` does.  A binary node visits left then right, pops
the right then the left register, and pushes the operator temporary;
the `switch` emits nothing for an operator outside `+ - * /` (the two
operands stay popped), and popping an empty stack (impossible for any
visit sequence the generator itself produces) is modelled as leaving
the state unchanged. -/
def visit : ExpressionAST → GenState → GenState
  | .variableRef name, s =>
    { code := s.code ++ [.loadVar s.registerId name]
      registers := ("%x" ++ toString s.registerId) :: s.registers
      registerId := s.registerId + 1 }
  | .number v, s =>
    { code := s.code ++ [.loadNum s.registerId v]
      registers := ("%x" ++ toString s.registerId) :: s.registers
      registerId := s.registerId + 1 }
  | .binaryExpression l r op, s =>
    let s2 := visit r (visit l s)
    match s2.registers with
    | rightReg :: leftReg :: rest =>
      if op = '+' then
        { code := s2.code ++ [.binOp .add s2.registerId leftReg rightReg]
          registers := ("%addtmp" ++ toString s2.registerId) :: rest
          registerId := s2.registerId + 1 }
      else if op = '-' then
        { code := s2.code ++ [.binOp .sub s2.registerId leftReg rightReg]
          registers := ("%subtmp" ++ toString s2.registerId) :: rest
          registerId := s2.registerId + 1 }
      else if op = '*' then
        { code := s2.code ++ [.binOp .mul s2.registerId leftReg rightReg]
          registers := ("%multmp" ++ toString s2.registerId) :: rest
          registerId := s2.registerId + 1 }
      else if op = '/' then
        { code := s2.code ++ [.binOp .div s2.registerId leftReg rightReg]
          registers := ("%divtmp" ++ toString s2.registerId) :: rest
          registerId := s2.registerId + 1 }
      else { s2 with registers := rest }
    | _ => s2

/-- The fresh generator state (`m_registerId = 1`). -/
def initGen : GenState := { code := [], registers := [], registerId := 1 }

/-- `SimpleCodeGenerator::Generate`: run the traversal from a fresh
state, then append `"%result = " + m_registers.back()` (note: no
trailing newline on that final fragment). -/
def generate (root : ExpressionAST) : String :=
  let s := visit root initGen
  String.join (s.code.map Instr.render) ++ "%result = "
    ++ (s.registers.head?.getD "")

/-- The error outcomes of one pipeline run, by C++ exception type. -/
inductive PipelineError
  | lexErr (e : LexError)
  | parseErr
  | outOfRange
  | outOfFuel
deriving DecidableEq, Repr

/-- `std::stoi` on the literal text the lexer produced: the leading
digit run (a following `.fraction` is ignored), failing when the value
exceeds `INT_MAX = 2147483647`.  The lexer only hands over strings
that start with a digit. -/
def stoi (s : String) : Except Unit Nat :=
  let ds := s.toList.takeWhile isDigit
  let n := ds.foldl (fun a c => a * 10 + (c.toNat - 48)) 0
  if n ≤ 2147483647 then .ok n else .error ()

/-- The parser state: the lexer it owns (`m_text`, `m_pos`) plus the
single lookahead token `m_token`. -/
structure ParserState where
  text : List Char
  pos : Nat
  token : Token
deriving DecidableEq, Repr

/-- `Parser::Eat`: check the lookahead kind, then pull the next token. -/
def eat (expected : TokenType) (s : ParserState) :
    Except PipelineError ParserState :=
  if s.token.type = expected then
    match getNextToken s.text s.pos with
    | .ok (t, p) => .ok { text := s.text, pos := p, token := t }
    | .error e => .error (.lexErr e)
  else .error .parseErr

mutual

/-- `Parser::ParseAtom`: number, identifier, or parenthesised
subexpression.  On a number the token is eaten first (so a lex error
on the following token surfaces before the conversion), then
`std::stoi` converts the literal text. -/
def parseAtom : Nat → ParserState → Except PipelineError (ExpressionAST × ParserState)
  | 0, _ => .error .outOfFuel
  | fuel + 1, s =>
    if s.token.type = .Number then do
      let value := s.token.value.getD ""
      let s1 ← eat .Number s
      match stoi value with
      | .ok n => .ok (.number n, s1)
      | .error _ => .error .outOfRange
    else if s.token.type = .Identifier then do
      let idName := s.token.value.getD ""
      let s1 ← eat .Identifier s
      .ok (.variableRef idName, s1)
    else if s.token.type = .LeftParen then do
      let s1 ← eat .LeftParen s
      let r ← parseAddSub fuel s1
      let s3 ← eat .RightParen r.2
      .ok (r.1, s3)
    else .error .parseErr

/-- The `while` loop of `Parser::ParseMulDiv`, carrying the subtree
built so far. -/
def parseMulDivLoop : Nat → ExpressionAST → ParserState →
    Except PipelineError (ExpressionAST × ParserState)
  | 0, _, _ => .error .outOfFuel
  | fuel + 1, node, s =>
    if s.token.type = .Mul then do
      let s1 ← eat .Mul s
      let r ← parseAtom fuel s1
      parseMulDivLoop fuel (.binaryExpression node r.1 '*') r.2
    else if s.token.type = .Div then do
      let s1 ← eat .Div s
      let r ← parseAtom fuel s1
      parseMulDivLoop fuel (.binaryExpression node r.1 '/') r.2
    else .ok (node, s)

/-- `Parser::ParseMulDiv`. -/
def parseMulDiv : Nat → ParserState → Except PipelineError (ExpressionAST × ParserState)
  | 0, _ => .error .outOfFuel
  | fuel + 1, s => do
    let r ← parseAtom fuel s
    parseMulDivLoop fuel r.1 r.2

/-- The `while` loop of `Parser::ParseAddSub`. -/
def parseAddSubLoop : Nat → ExpressionAST → ParserState →
    Except PipelineError (ExpressionAST × ParserState)
  | 0, _, _ => .error .outOfFuel
  | fuel + 1, node, s =>
    if s.token.type = .Plus then do
      let s1 ← eat .Plus s
      let r ← parseMulDiv fuel s1
      parseAddSubLoop fuel (.binaryExpression node r.1 '+') r.2
    else if s.token.type = .Minus then do
      let s1 ← eat .Minus s
      let r ← parseMulDiv fuel s1
      parseAddSubLoop fuel (.binaryExpression node r.1 '-') r.2
    else .ok (node, s)

/-- `Parser::ParseAddSub`, the parsing entry point. -/
def parseAddSub : Nat → ParserState → Except PipelineError (ExpressionAST × ParserState)
  | 0, _ => .error .outOfFuel
  | fuel + 1, s => do
    let r ← parseMulDiv fuel s
    parseAddSubLoop fuel r.1 r.2

end

/-- The `Parser` constructor: pull the first lookahead token. -/
def initParser (text : List Char) : Except PipelineError ParserState :=
  match getNextToken text 0 with
  | .ok (t, p) => .ok { text := text, pos := p, token := t }
  | .error e => .error (.lexErr e)

/-- Fuel that strictly dominates the number of parser steps: every
atom and every loop iteration consumes at least one input character. -/
def parseFuel (text : List Char) : Nat := 4 * (text.length + 2)

/-- Build a fresh parser over the line and run `ParseAddSub`,
returning the AST and the final parser state. -/
def runParse (line : String) :
    Except PipelineError (ExpressionAST × ParserState) := do
  let s ← initParser line.toList
  parseAddSub (parseFuel line.toList) s

/-- One iteration of the driver loop in `main` on one input line:
fresh lexer, parser and generator; parse, then generate. -/
def pipeline (line : String) : Except PipelineError String := do
  let r ← runParse line
  .ok (generate r.1)

/-- An input line of the shape `a - b - c` for three literal
characters (used for the left-associativity claim with `a`, `b`, `c`
single digits). -/
def c5text (a b c : Char) : List Char :=
  [a, ' ', '-', ' ', b, ' ', '-', ' ', c]

/-! ### Characterization of the code generator -/

/-- Number of instructions the generator emits for a tree (one per
node). -/
def nodeCount : ExpressionAST → Nat
  | .variableRef _ => 1
  | .number _ => 1
  | .binaryExpression l r _ => nodeCount l + nodeCount r + 1

/-- The instruction flavour selected by the `switch` on the operator
character (meaningful only for the four characters the parser can
produce). -/
def opKindOf (op : Char) : OpKind :=
  if op = '+' then .add
  else if op = '-' then .sub
  else if op = '*' then .mul
  else .div

/-- All operator characters in a tree are among the four the parser
constructs. -/
def validOps : ExpressionAST → Bool
  | .variableRef _ => true
  | .number _ => true
  | .binaryExpression l r op =>
    (op == '+' || op == '-' || op == '*' || op == '/')
      && validOps l && validOps r

/-- The register name a visit of the tree leaves on top of the stack,
when the counter starts at `k`. -/
def resultReg : ExpressionAST → Nat → String
  | .variableRef _, k => "%x" ++ toString k
  | .number _, k => "%x" ++ toString k
  | .binaryExpression l r op, k =>
    "%" ++ (opKindOf op).tmpName ++ toString (k + nodeCount l + nodeCount r)

/-- The instruction sequence a visit of the tree appends to the code,
when the counter starts at `k`. -/
def emit : ExpressionAST → Nat → List Instr
  | .variableRef n, k => [.loadVar k n]
  | .number v, k => [.loadNum k v]
  | .binaryExpression l r op, k =>
    emit l k ++ emit r (k + nodeCount l)
      ++ [.binOp (opKindOf op) (k + nodeCount l + nodeCount r)
            (resultReg l k) (resultReg r (k + nodeCount l))]

/-- What one visit does to an arbitrary generator state, for trees
whose operators all come from the parser: it appends `emit`, pushes
`resultReg`, and advances the counter by `nodeCount`. -/
theorem visit_eq (ast : ExpressionAST) (h : validOps ast = true)
    (s : GenState) :
    visit ast s =
      { code := s.code ++ emit ast s.registerId
        registers := resultReg ast s.registerId :: s.registers
        registerId := s.registerId + nodeCount ast } := by
  induction ast generalizing s with
  | variableRef name => simp [visit, emit, resultReg, nodeCount]
  | number v => simp [visit, emit, resultReg, nodeCount]
  | binaryExpression l r op ihl ihr =>
    have hops : (op = '+' ∨ op = '-' ∨ op = '*' ∨ op = '/')
        ∧ validOps l = true ∧ validOps r = true := by
      simpa [validOps, Bool.or_eq_true, Bool.and_eq_true, beq_iff_eq,
        and_assoc, or_assoc] using h
    obtain ⟨hop, hl, hr⟩ := hops
    rw [visit, ihl hl, ihr hr]
    rcases hop with hop | hop | hop | hop <;> subst hop <;>
      simp [emit, resultReg, nodeCount, opKindOf, OpKind.tmpName] <;>
      omega

/-- The destination-register suffixes of an emitted block are the
consecutive counter values starting at `k`. -/
theorem emit_map_destId (ast : ExpressionAST) (k : Nat) :
    (emit ast k).map Instr.destId = List.range' k (nodeCount ast) := by
  induction ast generalizing k with
  | variableRef name => simp [emit, nodeCount, Instr.destId]
  | number v => simp [emit, nodeCount, Instr.destId]
  | binaryExpression l r op ihl ihr =>
    simp only [emit, nodeCount, List.map_append, List.map_cons,
      List.map_nil, ihl, ihr, Instr.destId]
    rw [List.range'_append_1,
      show nodeCount l + nodeCount r + 1 = (nodeCount l + nodeCount r) + 1
        from rfl,
      List.range'_1_concat, show k + nodeCount l + nodeCount r
        = k + (nodeCount l + nodeCount r) from by omega,
      Nat.add_comm (nodeCount r) (nodeCount l)]

/-- The last instruction of an emitted block defines exactly the
register the visit leaves on the stack. -/
theorem emit_getLast_destName (ast : ExpressionAST) (k : Nat) :
    ((emit ast k).getLast?).map Instr.destName = some (resultReg ast k) := by
  cases ast with
  | variableRef name => simp [emit, resultReg, Instr.destName]
  | number v => simp [emit, resultReg, Instr.destName]
  | binaryExpression l r op =>
    simp only [emit]
    rw [List.getLast?_concat]
    simp [resultReg, Instr.destName]

/-! ### Lexer characterization -/

/-- Binding a successful `Except` computation just applies the
continuation. -/
theorem except_bind_ok {ε α β : Type} (a : α) (f : α → Except ε β) :
    (Except.ok a >>= f : Except ε β) = f a := rfl

/-- `skipWhitespacesAux` with enough gas moves the cursor over the
maximal whitespace run. -/
theorem skipWhitespacesAux_eq (text : List Char) (gas : Nat) :
    ∀ pos : Nat, text.length ≤ pos + gas →
      skipWhitespacesAux text gas pos =
        pos + ((text.drop pos).takeWhile isSpace).length := by
  induction gas with
  | zero =>
    intro pos h
    rw [skipWhitespacesAux, List.drop_eq_nil_of_le (by omega)]
    rfl
  | succ gas ih =>
    intro pos h
    rw [skipWhitespacesAux]
    by_cases hp : pos < text.length
    · rw [dif_pos hp, List.drop_eq_getElem_cons hp]
      by_cases hsp : isSpace (text.get ⟨pos, hp⟩) = true
      · rw [if_pos hsp]
        rw [List.takeWhile_cons_of_pos (by simpa using hsp)]
        rw [ih (pos + 1) (by omega)]
        simp
        omega
      · rw [if_neg hsp]
        rw [List.takeWhile_cons_of_neg (by simpa using hsp)]
        rfl
    · rw [dif_neg hp, List.drop_eq_nil_of_le (by omega)]
      rfl

/-- `SkipWhitespaces` moves the cursor over the maximal whitespace
run. -/
theorem skipWhitespaces_eq (text : List Char) (pos : Nat) :
    skipWhitespaces text pos =
      pos + ((text.drop pos).takeWhile isSpace).length := by
  rw [skipWhitespaces, skipWhitespacesAux_eq text _ pos (by omega)]

/-- `readDigitsAux` with enough gas reads the maximal digit run. -/
theorem readDigitsAux_eq (text : List Char) (gas : Nat) :
    ∀ pos : Nat, text.length ≤ pos + gas →
      readDigitsAux text gas pos =
        ((text.drop pos).takeWhile isDigit,
          pos + ((text.drop pos).takeWhile isDigit).length) := by
  induction gas with
  | zero =>
    intro pos h
    rw [readDigitsAux, List.drop_eq_nil_of_le (by omega)]
    rfl
  | succ gas ih =>
    intro pos h
    rw [readDigitsAux]
    by_cases hp : pos < text.length
    · rw [dif_pos hp, List.drop_eq_getElem_cons hp]
      simp only [List.get_eq_getElem]
      by_cases hd : isDigit (text[pos]) = true
      · rw [if_pos hd, List.takeWhile_cons_of_pos hd]
        rw [ih (pos + 1) (by omega)]
        simp
        omega
      · rw [if_neg hd, List.takeWhile_cons_of_neg hd]
        rfl
    · rw [dif_neg hp, List.drop_eq_nil_of_le (by omega)]
      rfl

/-- `readDigits` reads the maximal digit run. -/
theorem readDigits_eq (text : List Char) (pos : Nat) :
    readDigits text pos =
      ((text.drop pos).takeWhile isDigit,
        pos + ((text.drop pos).takeWhile isDigit).length) := by
  rw [readDigits, readDigitsAux_eq text _ pos (by omega)]

/-- A digit is not whitespace. -/
theorem isSpace_of_isDigit {d : Char} (h : isDigit d = true) :
    isSpace d = false := by
  simp [isDigit, isSpace] at h ⊢
  omega

/-- A digit is not a letter. -/
theorem isAlpha_of_isDigit {d : Char} (h : isDigit d = true) :
    isAlpha d = false := by
  simp [isDigit, isAlpha] at h ⊢
  omega

/-- `std::stoi` of a one-digit literal is its value. -/
theorem stoi_digit {d : Char} (h : isDigit d = true) :
    stoi (String.mk [d]) = .ok (d.toNat - 48) := by
  have hb : 48 ≤ d.toNat ∧ d.toNat ≤ 57 := by simpa [isDigit] using h
  simp [stoi, List.takeWhile_cons, h,
    (show (String.mk [d]).toList = [d] from rfl)]
  omega

/-- Past the end of the text the lexer returns `EndOfFile` and keeps
the cursor where it is. -/
theorem getNextToken_past_end (text : List Char) (pos : Nat)
    (h : text.length ≤ pos) :
    getNextToken text pos =
      .ok ({ type := TokenType.EndOfFile, value := none }, pos) := by
  have hz : text.length - pos = 0 := Nat.sub_eq_zero_of_le h
  have hs : skipWhitespaces text pos = pos := by
    rw [skipWhitespaces, hz]
    rfl
  rw [getNextToken]
  simp only [hs]
  rw [dif_neg (by omega)]

/-- Dispatching on a minus at scan position `p`. -/
theorem getNextToken_minus (text : List Char) (pos p : Nat)
    (rest : List Char)
    (hp : skipWhitespaces text pos = p)
    (hd : text.drop p = '-' :: rest) :
    getNextToken text pos =
      .ok ({ type := TokenType.Minus, value := none }, p + 1) := by
  have hlt : p < text.length := by
    by_contra hc
    rw [List.drop_eq_nil_of_le (by omega)] at hd
    cases hd
  have h2 : ('-' :: rest : List Char) = text[p] :: text.drop (p + 1) :=
    hd ▸ List.drop_eq_getElem_cons hlt
  injection h2 with h3 h4
  rw [getNextToken]
  simp only [hp, List.get_eq_getElem]
  rw [dif_pos hlt]
  simp [← h3, (by decide : isDigit '-' = false),
    (by decide : isAlpha '-' = false), (by decide : ¬('-' = '+'))]

/-- Dispatching on a digit at scan position `p` whose following
character is a space: the token is that single digit. -/
theorem getNextToken_digit_then_space (text : List Char) (pos p : Nat)
    (d : Char) (rest : List Char)
    (hp : skipWhitespaces text pos = p)
    (hdig : isDigit d = true)
    (hd : text.drop p = d :: ' ' :: rest) :
    getNextToken text pos =
      .ok ({ type := TokenType.Number, value := some (String.mk [d]) },
        p + 1) := by
  have hlt : p < text.length := by
    by_contra hc
    rw [List.drop_eq_nil_of_le (by omega)] at hd
    cases hd
  have h2 : (d :: ' ' :: rest : List Char) = text[p] :: text.drop (p + 1) :=
    hd ▸ List.drop_eq_getElem_cons hlt
  injection h2 with h3 h4
  have hlt2 : p + 1 < text.length := by
    by_contra hc
    rw [List.drop_eq_nil_of_le (by omega)] at h4
    cases h4
  have h7 : (' ' :: rest : List Char) = text[p + 1] :: text.drop (p + 2) :=
    h4.trans (List.drop_eq_getElem_cons hlt2)
  injection h7 with h8 h9
  rw [getNextToken]
  simp only [hp, List.get_eq_getElem]
  rw [dif_pos hlt]
  simp [← h3, hdig, isAlpha_of_isDigit hdig, readAsNumberConstant,
    readDigits_eq, hd, List.takeWhile_cons,
    (by decide : isDigit ' ' = false), hlt2, ← h8,
    (by decide : ¬(' ' = '.'))]

/-- Dispatching on a digit that is the last character of the text. -/
theorem getNextToken_digit_at_end (text : List Char) (pos p : Nat)
    (d : Char)
    (hp : skipWhitespaces text pos = p)
    (hdig : isDigit d = true)
    (hd : text.drop p = [d]) :
    getNextToken text pos =
      .ok ({ type := TokenType.Number, value := some (String.mk [d]) },
        p + 1) := by
  have hlt : p < text.length := by
    by_contra hc
    rw [List.drop_eq_nil_of_le (by omega)] at hd
    cases hd
  have h2 : ([d] : List Char) = text[p] :: text.drop (p + 1) :=
    hd ▸ List.drop_eq_getElem_cons hlt
  injection h2 with h3 h4
  have hlen : text.length ≤ p + 1 := by
    by_contra hc
    rw [List.drop_eq_getElem_cons (by omega : p + 1 < text.length)] at h4
    cases h4
  rw [getNextToken]
  simp only [hp, List.get_eq_getElem]
  rw [dif_pos hlt]
  simp [← h3, hdig, isAlpha_of_isDigit hdig, readAsNumberConstant,
    readDigits_eq, hd, List.takeWhile_cons,
    (show ¬(p + 1 < text.length) from by omega)]

/-- Lexing `a - b - c` from position 0: the token is the literal `a`. -/
theorem c5_lex0 {a b c : Char} (ha : isDigit a = true) :
    getNextToken (c5text a b c) 0 =
      .ok ({ type := .Number, value := some (String.mk [a]) }, 1) := by
  refine getNextToken_digit_then_space (c5text a b c) 0 0 a
    ['-', ' ', b, ' ', '-', ' ', c] ?_ ha rfl
  simp [skipWhitespaces_eq, c5text, List.takeWhile_cons,
    isSpace_of_isDigit ha]

/-- Lexing `a - b - c` from position 1: the first minus. -/
theorem c5_lex1 {a b c : Char} :
    getNextToken (c5text a b c) 1 =
      .ok ({ type := .Minus, value := none }, 3) := by
  refine getNextToken_minus (c5text a b c) 1 2 [' ', b, ' ', '-', ' ', c]
    ?_ rfl
  simp [skipWhitespaces_eq, c5text, List.takeWhile_cons,
    (by decide : isSpace ' ' = true), (by decide : isSpace '-' = false)]

/-- Lexing `a - b - c` from position 3: the literal `b`. -/
theorem c5_lex3 {a b c : Char} (hb : isDigit b = true) :
    getNextToken (c5text a b c) 3 =
      .ok ({ type := .Number, value := some (String.mk [b]) }, 5) := by
  refine getNextToken_digit_then_space (c5text a b c) 3 4 b
    ['-', ' ', c] ?_ hb rfl
  simp [skipWhitespaces_eq, c5text, List.takeWhile_cons,
    (by decide : isSpace ' ' = true), isSpace_of_isDigit hb]

/-- Lexing `a - b - c` from position 5: the second minus. -/
theorem c5_lex5 {a b c : Char} :
    getNextToken (c5text a b c) 5 =
      .ok ({ type := .Minus, value := none }, 7) := by
  refine getNextToken_minus (c5text a b c) 5 6 [' ', c] ?_ rfl
  simp [skipWhitespaces_eq, c5text, List.takeWhile_cons,
    (by decide : isSpace ' ' = true), (by decide : isSpace '-' = false)]

/-- Lexing `a - b - c` from position 7: the literal `c`, ending at the
end of the line. -/
theorem c5_lex7 {a b c : Char} (hc : isDigit c = true) :
    getNextToken (c5text a b c) 7 =
      .ok ({ type := .Number, value := some (String.mk [c]) }, 9) := by
  refine getNextToken_digit_at_end (c5text a b c) 7 8 c ?_ hc rfl
  simp [skipWhitespaces_eq, c5text, List.takeWhile_cons,
    (by decide : isSpace ' ' = true), isSpace_of_isDigit hc]

/-- Parsing `a - b - c` (single-digit literals) builds the
left-associated tree `(a - b) - c` and consumes the whole line. -/
theorem c5_parse {a b c : Char} (ha : isDigit a = true)
    (hb : isDigit b = true) (hc : isDigit c = true) :
    runParse (String.mk (c5text a b c)) =
      .ok (ExpressionAST.binaryExpression
            (ExpressionAST.binaryExpression
              (ExpressionAST.number (a.toNat - 48))
              (ExpressionAST.number (b.toNat - 48)) '-')
            (ExpressionAST.number (c.toNat - 48)) '-',
        ⟨c5text a b c, 9, { type := .EndOfFile, value := none }⟩) := by
  have e0 : eat .Number ⟨c5text a b c, 1,
      { type := .Number, value := some (String.mk [a]) }⟩ =
      .ok ⟨c5text a b c, 3, { type := .Minus, value := none }⟩ := by
    simp [eat, c5_lex1]
  have e1 : eat .Minus ⟨c5text a b c, 3,
      { type := .Minus, value := none }⟩ =
      .ok ⟨c5text a b c, 5,
        { type := .Number, value := some (String.mk [b]) }⟩ := by
    simp [eat, c5_lex3 hb]
  have e2 : eat .Number ⟨c5text a b c, 5,
      { type := .Number, value := some (String.mk [b]) }⟩ =
      .ok ⟨c5text a b c, 7, { type := .Minus, value := none }⟩ := by
    simp [eat, c5_lex5]
  have e3 : eat .Minus ⟨c5text a b c, 7,
      { type := .Minus, value := none }⟩ =
      .ok ⟨c5text a b c, 9,
        { type := .Number, value := some (String.mk [c]) }⟩ := by
    simp [eat, c5_lex7 hc]
  have e4 : eat .Number ⟨c5text a b c, 9,
      { type := .Number, value := some (String.mk [c]) }⟩ =
      .ok ⟨c5text a b c, 9, { type := .EndOfFile, value := none }⟩ := by
    simp [eat, getNextToken_past_end (c5text a b c) 9 (by simp [c5text])]
  have a0 : parseAtom 42 ⟨c5text a b c, 1,
      { type := .Number, value := some (String.mk [a]) }⟩ =
      .ok (ExpressionAST.number (a.toNat - 48),
        ⟨c5text a b c, 3, { type := .Minus, value := none }⟩) := by
    simp [parseAtom, e0, stoi_digit ha, except_bind_ok]
  have a1 : parseAtom 41 ⟨c5text a b c, 5,
      { type := .Number, value := some (String.mk [b]) }⟩ =
      .ok (ExpressionAST.number (b.toNat - 48),
        ⟨c5text a b c, 7, { type := .Minus, value := none }⟩) := by
    simp [parseAtom, e2, stoi_digit hb, except_bind_ok]
  have a2 : parseAtom 40 ⟨c5text a b c, 9,
      { type := .Number, value := some (String.mk [c]) }⟩ =
      .ok (ExpressionAST.number (c.toNat - 48),
        ⟨c5text a b c, 9, { type := .EndOfFile, value := none }⟩) := by
    simp [parseAtom, e4, stoi_digit hc, except_bind_ok]
  have ml0 : parseMulDivLoop 42 (ExpressionAST.number (a.toNat - 48))
      ⟨c5text a b c, 3, { type := .Minus, value := none }⟩ =
      .ok (ExpressionAST.number (a.toNat - 48),
        ⟨c5text a b c, 3, { type := .Minus, value := none }⟩) := by
    simp [parseMulDivLoop]
  have ml1 : parseMulDivLoop 41 (ExpressionAST.number (b.toNat - 48))
      ⟨c5text a b c, 7, { type := .Minus, value := none }⟩ =
      .ok (ExpressionAST.number (b.toNat - 48),
        ⟨c5text a b c, 7, { type := .Minus, value := none }⟩) := by
    simp [parseMulDivLoop]
  have ml2 : parseMulDivLoop 40 (ExpressionAST.number (c.toNat - 48))
      ⟨c5text a b c, 9, { type := .EndOfFile, value := none }⟩ =
      .ok (ExpressionAST.number (c.toNat - 48),
        ⟨c5text a b c, 9, { type := .EndOfFile, value := none }⟩) := by
    simp [parseMulDivLoop]
  have m0 : parseMulDiv 43 ⟨c5text a b c, 1,
      { type := .Number, value := some (String.mk [a]) }⟩ =
      .ok (ExpressionAST.number (a.toNat - 48),
        ⟨c5text a b c, 3, { type := .Minus, value := none }⟩) := by
    simp [parseMulDiv, a0, ml0, except_bind_ok]
  have m1 : parseMulDiv 42 ⟨c5text a b c, 5,
      { type := .Number, value := some (String.mk [b]) }⟩ =
      .ok (ExpressionAST.number (b.toNat - 48),
        ⟨c5text a b c, 7, { type := .Minus, value := none }⟩) := by
    simp [parseMulDiv, a1, ml1, except_bind_ok]
  have m2 : parseMulDiv 41 ⟨c5text a b c, 9,
      { type := .Number, value := some (String.mk [c]) }⟩ =
      .ok (ExpressionAST.number (c.toNat - 48),
        ⟨c5text a b c, 9, { type := .EndOfFile, value := none }⟩) := by
    simp [parseMulDiv, a2, ml2, except_bind_ok]
  have al2 : parseAddSubLoop 41
      (ExpressionAST.binaryExpression
        (ExpressionAST.binaryExpression
          (ExpressionAST.number (a.toNat - 48))
          (ExpressionAST.number (b.toNat - 48)) '-')
        (ExpressionAST.number (c.toNat - 48)) '-')
      ⟨c5text a b c, 9, { type := .EndOfFile, value := none }⟩ =
      .ok (ExpressionAST.binaryExpression
        (ExpressionAST.binaryExpression
          (ExpressionAST.number (a.toNat - 48))
          (ExpressionAST.number (b.toNat - 48)) '-')
        (ExpressionAST.number (c.toNat - 48)) '-',
        ⟨c5text a b c, 9, { type := .EndOfFile, value := none }⟩) := by
    simp [parseAddSubLoop]
  have al1 : parseAddSubLoop 42
      (ExpressionAST.binaryExpression
        (ExpressionAST.number (a.toNat - 48))
        (ExpressionAST.number (b.toNat - 48)) '-')
      ⟨c5text a b c, 7, { type := .Minus, value := none }⟩ =
      .ok (ExpressionAST.binaryExpression
        (ExpressionAST.binaryExpression
          (ExpressionAST.number (a.toNat - 48))
          (ExpressionAST.number (b.toNat - 48)) '-')
        (ExpressionAST.number (c.toNat - 48)) '-',
        ⟨c5text a b c, 9, { type := .EndOfFile, value := none }⟩) := by
    rw [parseAddSubLoop]
    simp only [e3, m2, al2, except_bind_ok]
    simp
  have al0 : parseAddSubLoop 43 (ExpressionAST.number (a.toNat - 48))
      ⟨c5text a b c, 3, { type := .Minus, value := none }⟩ =
      .ok (ExpressionAST.binaryExpression
        (ExpressionAST.binaryExpression
          (ExpressionAST.number (a.toNat - 48))
          (ExpressionAST.number (b.toNat - 48)) '-')
        (ExpressionAST.number (c.toNat - 48)) '-',
        ⟨c5text a b c, 9, { type := .EndOfFile, value := none }⟩) := by
    rw [parseAddSubLoop]
    simp only [e1, m1, al1, except_bind_ok]
    simp
  have hfin : parseAddSub 44 ⟨c5text a b c, 1,
      { type := .Number, value := some (String.mk [a]) }⟩ =
      .ok (ExpressionAST.binaryExpression
        (ExpressionAST.binaryExpression
          (ExpressionAST.number (a.toNat - 48))
          (ExpressionAST.number (b.toNat - 48)) '-')
        (ExpressionAST.number (c.toNat - 48)) '-',
        ⟨c5text a b c, 9, { type := .EndOfFile, value := none }⟩) := by
    simp [parseAddSub, m0, al0, except_bind_ok]
  simp [runParse,
    (show (String.mk (c5text a b c)).toList = c5text a b c from rfl),
    (show parseFuel (c5text a b c) = 44 from rfl),
    initParser, c5_lex0 ha, hfin, except_bind_ok]

/-! ### Claims -/

set_option maxHeartbeats 4000000 in
/-- C1: the full pipeline on the line `(1 + 2) / 3 * 5` emits, in
order, the literal loads of 1 and 2, their add, the load of 3, the div,
the load of 5, the mul, and the `%result` line aliasing the mul
register, with exactly the stated register names and values. -/
theorem c1_paren_example :
    pipeline "(1 + 2) / 3 * 5" =
      .ok ("%x1 = 1.000000\n%x2 = 2.000000\n%addtmp3 = add %x1 %x2\n"
        ++ "%x4 = 3.000000\n%divtmp5 = div %addtmp3 %x4\n"
        ++ "%x6 = 5.000000\n%multmp7 = mul %divtmp5 %x6\n"
        ++ "%result = %multmp7") := by rfl

/-- C2 (failing input): on the single well-formed literal `1.5` the
pipeline emits `%x1 = 1.000000`, not the decimal value 1.5 of the
literal text, because `ParseAtom` converts the text with `std::stoi`,
which reads only the leading digit run. -/
theorem c2_fraction_truncated :
    stoi "1.5" = .ok 1 ∧
    pipeline "1.5" = .ok "%x1 = 1.000000\n%result = %x1" := ⟨rfl, rfl⟩

/-- C3 (counterexample): on the input `1 2` — a complete expression
followed by a trailing token — `ParseAddSub` does not fail: it returns
the AST of `1`, leaving the token `2` as the unconsumed lookahead. -/
theorem c3_counterexample :
    runParse "1 2" =
      .ok (ExpressionAST.number 1,
        { text := "1 2".toList, pos := 3,
          token := { type := TokenType.Number, value := some "2" } }) := by
  rfl

/-- C3 (amended): `ParseAddSub` never checks for `EndOfFile`, so
trailing tokens never make it fail: universally, whenever the
lookahead is not `+`/`-` the `ParseAddSub` loop returns the tree built
so far with that lookahead untouched (and likewise the `ParseMulDiv`
loop for a lookahead that is not `*`/`/`), so the parser returns the
AST of the maximal expression prefix with the first trailing token
left as lookahead, and the driver then generates IR for that prefix
(shown end to end on `1 + 2)` and `1 2`). -/
theorem c3_trailing_tokens_accepted :
    (∀ (fuel : Nat) (node : ExpressionAST) (s : ParserState),
      s.token.type ≠ .Plus → s.token.type ≠ .Minus →
        parseAddSubLoop (fuel + 1) node s = .ok (node, s)) ∧
    (∀ (fuel : Nat) (node : ExpressionAST) (s : ParserState),
      s.token.type ≠ .Mul → s.token.type ≠ .Div →
        parseMulDivLoop (fuel + 1) node s = .ok (node, s)) ∧
    runParse "1 + 2)" =
      .ok (ExpressionAST.binaryExpression
            (ExpressionAST.number 1) (ExpressionAST.number 2) '+',
        { text := "1 + 2)".toList, pos := 6,
          token := { type := TokenType.RightParen, value := none } }) ∧
    pipeline "1 2" = .ok "%x1 = 1.000000\n%result = %x1" :=
  ⟨fun fuel node s h1 h2 => by simp [parseAddSubLoop, h1, h2],
   fun fuel node s h1 h2 => by simp [parseMulDivLoop, h1, h2],
   rfl, rfl⟩

/-- C3 (amended) applied to the lookahead `2` left pending after
parsing the prefix `1` of `1 2`: the `ParseAddSub` loop returns the
built tree unchanged. -/
theorem c3_trailing_tokens_accepted_witness :
    parseAddSubLoop 5 (ExpressionAST.number 1)
      ⟨"1 2".toList, 3, { type := TokenType.Number, value := some "2" }⟩ =
      .ok (ExpressionAST.number 1,
        ⟨"1 2".toList, 3,
          { type := TokenType.Number, value := some "2" }⟩) :=
  c3_trailing_tokens_accepted.1 4 (ExpressionAST.number 1)
    ⟨"1 2".toList, 3, { type := TokenType.Number, value := some "2" }⟩
    (by decide) (by decide)

/-- C9: the pipeline is a pure function of the input line — two runs
on the same line (fresh lexer, parser, generator each, as `main`
creates them) give identical results; the embedding has no other
state a run could depend on. -/
theorem c9_deterministic (line : String) :
    pipeline line = pipeline line := rfl

/-- C10: the lexer accepts the ten-digit literal `3000000000`, yet
parsing fails, because `std::stoi` rejects values above `INT_MAX`;
the resulting error is the `std::out_of_range` one, distinct from the
lexer-error and parse-error outcomes. -/
theorem c10_stoi_out_of_range :
    getNextToken ("3000000000".toList) 0 =
      .ok ({ type := TokenType.Number, value := some "3000000000" }, 10) ∧
    runParse "3000000000" = .error PipelineError.outOfRange ∧
    pipeline "3000000000" = .error PipelineError.outOfRange :=
  ⟨rfl, rfl, rfl⟩

/-- C4: for every tree whose operators are the four the parser can
build, the destination-register suffixes in `Generate`, taken in
emission order, are exactly `1, 2, ..., n` — one shared counter
starting at 1, stepped once per emitted instruction. -/
theorem c4_register_ids (ast : ExpressionAST) (h : validOps ast = true) :
    ((visit ast initGen).code).map Instr.destId =
      List.range' 1 (nodeCount ast) := by
  rw [visit_eq ast h initGen]
  simp [initGen, emit_map_destId]

/-- C4 applied to the tree of `1 + 2`: suffixes `[1, 2, 3]`. -/
theorem c4_register_ids_witness :
    validOps (ExpressionAST.binaryExpression
      (ExpressionAST.number 1) (ExpressionAST.number 2) '+') = true ∧
    ((visit (ExpressionAST.binaryExpression
        (ExpressionAST.number 1) (ExpressionAST.number 2) '+')
        initGen).code).map Instr.destId = List.range' 1 3 :=
  ⟨by decide, c4_register_ids _ (by decide)⟩

/-- C6 (counterexample): `Generate` appends the final fragment as
`"%result = " + m_registers.back()` with no newline, so its output
does not end with a trailing `"\n"`: on the tree of `1` it returns
exactly `"%x1 = 1.000000\n%result = %x1"`. -/
theorem c6_no_trailing_newline :
    generate (ExpressionAST.number 1) = "%x1 = 1.000000\n%result = %x1" ∧
    (generate (ExpressionAST.number 1)).toList.getLast? = some '1' ∧
    '1' ≠ '\n' :=
  ⟨rfl, rfl, by decide⟩

/-- C6 (amended): for every parser-producible tree, on completion the
register stack holds exactly one name — the destination of the last
emitted instruction — and `Generate` returns the rendered instructions
followed by `"%result = "` and that register (without a trailing
newline). -/
theorem c6_result_aliases_last (ast : ExpressionAST)
    (h : validOps ast = true) :
    (visit ast initGen).registers = [resultReg ast 1] ∧
    ((visit ast initGen).code.getLast?).map Instr.destName =
      some (resultReg ast 1) ∧
    generate ast = String.join ((visit ast initGen).code.map Instr.render)
      ++ "%result = " ++ resultReg ast 1 := by
  have hv := visit_eq ast h initGen
  refine ⟨?_, ?_, ?_⟩
  · rw [hv]
    simp [initGen]
  · rw [hv]
    simpa [initGen] using emit_getLast_destName ast 1
  · simp only [generate]
    rw [hv]
    simp [initGen]

/-- C6 applied to the tree of `2`. -/
theorem c6_result_aliases_last_witness :
    validOps (ExpressionAST.number 2) = true ∧
    (visit (ExpressionAST.number 2) initGen).registers =
      [resultReg (ExpressionAST.number 2) 1] ∧
    generate (ExpressionAST.number 2) =
      String.join ((visit (ExpressionAST.number 2) initGen).code.map
        Instr.render) ++ "%result = " ++ resultReg (ExpressionAST.number 2) 1 :=
  ⟨rfl, (c6_result_aliases_last (ExpressionAST.number 2) (by decide)).1,
    (c6_result_aliases_last (ExpressionAST.number 2) (by decide)).2.2⟩

/-- C7 (counterexample): the character `.` is not whitespace, not a
digit, not a letter, and not one of `+ - * / ( )`, yet the line `1.5`
containing it lexes without any error (the dot is consumed inside the
number token) and the pipeline produces IR for it. -/
theorem c7_counterexample :
    (isSpace '.' = false ∧ isDigit '.' = false ∧ isAlpha '.' = false ∧
      '.' ∉ ['+', '-', '*', '/', '(', ')']) ∧
    getNextToken ("1.5".toList) 0 =
      .ok ({ type := TokenType.Number, value := some "1.5" }, 3) ∧
    pipeline "1.5" = .ok "%x1 = 1.000000\n%result = %x1" :=
  ⟨by decide, rfl, rfl⟩

/-- C7 (amended): a `LexError` occurs exactly when a scan starts at a
character (the first non-whitespace one from the cursor) that is not a
digit, not a letter and not one of `+ - * / ( )`; the error then
carries that character and its zero-based position. -/
theorem c7_lex_error_position (text : List Char) (pos : Nat)
    (h : skipWhitespaces text pos < text.length)
    (hd : isDigit (text.get ⟨skipWhitespaces text pos, h⟩) = false)
    (ha : isAlpha (text.get ⟨skipWhitespaces text pos, h⟩) = false)
    (hop : text.get ⟨skipWhitespaces text pos, h⟩ ∉
      ['+', '-', '*', '/', '(', ')']) :
    getNextToken text pos =
      .error { pos := skipWhitespaces text pos,
               ch := text.get ⟨skipWhitespaces text pos, h⟩ } := by
  have hops : text.get ⟨skipWhitespaces text pos, h⟩ ≠ '+' ∧
      text.get ⟨skipWhitespaces text pos, h⟩ ≠ '-' ∧
      text.get ⟨skipWhitespaces text pos, h⟩ ≠ '*' ∧
      text.get ⟨skipWhitespaces text pos, h⟩ ≠ '/' ∧
      text.get ⟨skipWhitespaces text pos, h⟩ ≠ '(' ∧
      text.get ⟨skipWhitespaces text pos, h⟩ ≠ ')' := by
    simpa using hop
  simp only [List.get_eq_getElem] at hd ha hops
  simp [getNextToken, h, hd, ha, hops.1, hops.2.1, hops.2.2.1,
    hops.2.2.2.1, hops.2.2.2.2.1, hops.2.2.2.2.2]

/-- C7 applied to `1 $ 2` after its first token: the `$` is reported
at zero-based position 2. -/
theorem c7_lex_error_position_witness :
    getNextToken ("1 $ 2".toList) 1 = .error { pos := 2, ch := '$' } := by
  have he := c7_lex_error_position ("1 $ 2".toList) 1 (by decide) (by decide)
    (by decide) (by decide)
  rw [he]
  rfl

/-- C8: once the scan position has reached the end of the text, every
further `GetNextToken` call returns an `EndOfFile` token (with no
payload) and leaves the position unchanged, so exhaustion is absorbing. -/
theorem c8_eof_absorbing (text : List Char) (pos : Nat)
    (h : text.length ≤ pos) :
    getNextToken text pos =
      .ok ({ type := TokenType.EndOfFile, value := none }, pos) :=
  getNextToken_past_end text pos h

/-- C8 applied to the exhausted lexer of `1`: the call returns
`EndOfFile` at position 1, and so does a repeated call. -/
theorem c8_eof_absorbing_witness :
    getNextToken ("1".toList) 1 =
      .ok ({ type := TokenType.EndOfFile, value := none }, 1) :=
  c8_eof_absorbing ("1".toList) 1 (by decide)

/-- C5: for every `a - b - c` over single-digit literals, the parser
builds the left-associated tree `((a - b) - c)`; the generated
instruction sequence is literally: load `a`, load `b`, `sub` of those
two (combining `a` and `b` first), load `c`, then the `sub` combining
that result with `c` — never `b - c` first — and the pipeline output
is the rendering of exactly that sequence. -/
theorem c5_left_associative {a b c : Char} (ha : isDigit a = true)
    (hb : isDigit b = true) (hc : isDigit c = true) :
    runParse (String.mk (c5text a b c)) =
      .ok (ExpressionAST.binaryExpression
            (ExpressionAST.binaryExpression
              (ExpressionAST.number (a.toNat - 48))
              (ExpressionAST.number (b.toNat - 48)) '-')
            (ExpressionAST.number (c.toNat - 48)) '-',
        ⟨c5text a b c, 9, { type := .EndOfFile, value := none }⟩) ∧
    (visit (ExpressionAST.binaryExpression
        (ExpressionAST.binaryExpression
          (ExpressionAST.number (a.toNat - 48))
          (ExpressionAST.number (b.toNat - 48)) '-')
        (ExpressionAST.number (c.toNat - 48)) '-') initGen).code =
      [Instr.loadNum 1 (a.toNat - 48), Instr.loadNum 2 (b.toNat - 48),
       Instr.binOp .sub 3 "%x1" "%x2", Instr.loadNum 4 (c.toNat - 48),
       Instr.binOp .sub 5 "%subtmp3" "%x4"] ∧
    pipeline (String.mk (c5text a b c)) =
      .ok (generate (ExpressionAST.binaryExpression
        (ExpressionAST.binaryExpression
          (ExpressionAST.number (a.toNat - 48))
          (ExpressionAST.number (b.toNat - 48)) '-')
        (ExpressionAST.number (c.toNat - 48)) '-')) :=
  ⟨c5_parse ha hb hc, by
    simp [visit, initGen]
    decide, by
    simp [pipeline, c5_parse ha hb hc, except_bind_ok]⟩

/-- C5 applied to `1 - 2 - 3`. -/
theorem c5_left_associative_witness :
    runParse "1 - 2 - 3" =
      .ok (ExpressionAST.binaryExpression
            (ExpressionAST.binaryExpression (ExpressionAST.number 1)
              (ExpressionAST.number 2) '-')
            (ExpressionAST.number 3) '-',
        ⟨"1 - 2 - 3".toList, 9, { type := .EndOfFile, value := none }⟩) ∧
    pipeline "1 - 2 - 3" =
      .ok ("%x1 = 1.000000\n%x2 = 2.000000\n%subtmp3 = sub %x1 %x2\n"
        ++ "%x4 = 3.000000\n%subtmp5 = sub %subtmp3 %x4\n"
        ++ "%result = %subtmp5") := by
  have h := c5_left_associative (a := '1') (b := '2') (c := '3')
    (by decide) (by decide) (by decide)
  exact ⟨h.1, h.2.2.trans (by rfl)⟩
